import Mathlib

/-!
Shallow embedding of the dependency classification engine of `ng16-dep-audit`
(source file: the main CLI script).  The engine fetches each declared
dependency's latest registry metadata with retry/backoff
(`httpGetWithRetry`), probes the package archive for view-engine markers
(`isViewEngine`, `checkFileExists`), classifies each dependency into one of
three buckets (`checkAngularCompatibility`), and fans the classifier out over
all declared dependencies (`getDependenciesAndCheckCompatibility`, modelled
here by `runChecks`).

Modelling conventions:
* Network and filesystem outcomes are parameters (`HttpAttempt`,
  `ExtractOutcome`), so each code path is a pure function of its inputs.
* Filesystem side effects of the probe are recorded as an explicit effect
  trace (`FsEffect`), and a simple disk model (`applyEffects`) interprets it.
* Strings are Lean `String`s; the JS string operations used by the source
  (`startsWith`, anchored-suffix `replace`, `path.resolve` on dot-free
  paths) are modelled on the underlying character lists so that everything
  evaluates by `decide`.
* Task completion order of the concurrent coordinator is modelled by the
  order of the input list; the claims proved below are quantified over all
  inputs, hence over all completion orders.
-/

namespace NgDepAudit

/-- JS `s.startsWith(p)`, via character lists. -/
def strStartsWith (s p : String) : Bool :=
  p.data.isPrefixOf s.data

/-- JS `s.endsWith(p)`, via character lists. -/
def strEndsWith (s p : String) : Bool :=
  p.data.isSuffixOf s.data

/-- JS `s.replace(/<pat>$/, repl)` for a literal end-anchored pattern:
replaces the suffix `pat` by `repl` when present, else returns `s`. -/
def replaceSuffix (s pat repl : String) : String :=
  if strEndsWith s pat then String.mk (s.data.take (s.data.length - pat.data.length)) ++ repl
  else s

/-- Whether a string contains the path separator character. -/
def hasSlash (s : String) : Bool :=
  s.data.contains '/'

/-- Node `path.resolve(base, rel)` for dot-free segments: an absolute `rel`
wins, otherwise `rel` is joined onto `base`. -/
def pathResolve (base rel : String) : String :=
  if rel.data.head? == some '/' then rel else base ++ "/" ++ rel

/-- `sanitizePackageName` from the source: replaces every `@` and `/` by `_`. -/
def sanitizePackageName (s : String) : String :=
  String.mk (s.data.map (fun c => if c == '@' || c == '/' then '_' else c))

/-- The registry's latest-version metadata record for a package, as consumed
by the source (`packageInfo` / the `packageJson` argument of `isViewEngine`).
`metadata` models truthiness of the legacy `metadata` field; `fields` holds
the string-valued entry-point fields (`fesm2015`, `main`, ...). -/
structure RegistryMetadata where
  name : String
  version : String
  dependencies : List (String × String)
  devDependencies : List (String × String)
  peerDependencies : List (String × String)
  metadata : Bool
  typings : Option String
  types : Option String
  fields : List (String × String)
  distTarball : Option String
deriving DecidableEq, Repr

/-- JS `key in obj` on an object built by spreading association lists. -/
def hasKey (l : List (String × String)) (k : String) : Bool :=
  l.any (fun p => p.1 == k)

/-- JS `a || b || null` on optional string fields (empty string is falsy). -/
def jsOr (a b : Option String) : Option String :=
  match a with
  | some s => if s == "" then (match b with
      | some t => if t == "" then none else some t
      | none => none) else some s
  | none => match b with
    | some t => if t == "" then none else some t
    | none => none

/-- Result of one HTTP request attempt inside `httpGetWithRetry`: a response
with a status code (body parsed as metadata when 2xx) or a transport error. -/
inductive HttpAttempt where
  | response (statusCode : Nat) (body : RegistryMetadata)
  | transportError (msg : String)
deriving DecidableEq, Repr

/-- The value `checkAngularCompatibility` receives from `httpGetWithRetry`:
parsed metadata, `null` (HTTP 404), or `undefined` (retries exhausted). -/
inductive FetchResult where
  | found (info : RegistryMetadata)
  | notFound
  | exhausted
deriving DecidableEq, Repr

/-- An attempt that the source rejects and retries: status 429, or any other
status outside 200-299 that is not 404, or a transport error. -/
def transient : HttpAttempt → Bool
  | .response c _ => decide (c ≠ 404 ∧ (c = 429 ∨ c < 200 ∨ c > 299))
  | .transportError _ => true

/-- The retry loop of `httpGetWithRetry`: attempt counter starts at 1; 404
resolves `null` at once; a 2xx resolves the parsed body; any other outcome
is rejected and, when attempts remain, retried after `delayMs * 2^(attempt-1)`
milliseconds.  Returns (result, attempts made, list of backoff delays).
`fuel` bounds the recursion by the remaining loop iterations. -/
def httpAux (attempts : Nat → HttpAttempt) (retries delayMs attempt fuel : Nat) :
    FetchResult × Nat × List Nat :=
  match fuel with
  | 0 => (.exhausted, attempt - 1, [])
  | fuel + 1 =>
    match attempts attempt with
    | .response c body =>
      if c = 404 then (.notFound, attempt, [])
      else if c = 429 ∨ c < 200 ∨ c > 299 then
        if attempt < retries then
          let rest := httpAux attempts retries delayMs (attempt + 1) fuel
          (rest.1, rest.2.1, delayMs * 2 ^ (attempt - 1) :: rest.2.2)
        else (.exhausted, attempt, [])
      else (.found body, attempt, [])
    | .transportError _ =>
      if attempt < retries then
        let rest := httpAux attempts retries delayMs (attempt + 1) fuel
        (rest.1, rest.2.1, delayMs * 2 ^ (attempt - 1) :: rest.2.2)
      else (.exhausted, attempt, [])

/-- `httpGetWithRetry(url, retries, delayMs)`: runs the attempt loop from
attempt 1 with at most `retries` iterations. -/
def httpGetWithRetry (attempts : Nat → HttpAttempt) (retries delayMs : Nat) :
    FetchResult × Nat × List Nat :=
  httpAux attempts retries delayMs 1 retries

/-- The call site `httpGetWithRetry(url)` uses the defaults
`retries = 3`, `delayMs = 1000`. -/
def httpGetLatest (attempts : Nat → HttpAttempt) : FetchResult × Nat × List Nat :=
  httpGetWithRetry attempts 3 1000

/-- Extracted archive contents, as a directory tree (entry name, subtree). -/
inductive FsTree where
  | node (entries : List (String × FsTree))

/-- `fs.promises.readdir`: the names of the immediate entries of a directory. -/
def readdir : FsTree → List String
  | .node es => es.map (fun p => p.1)

/-- `checkFileExists(extractTo, checkFileName)` from the source: lists the
immediate entries of `extractTo` and tests whether `checkFileName` is
string-equal to one of those entry names. -/
def checkFileExists (extractTo : FsTree) (checkFileName : String) : Bool :=
  (readdir extractTo).contains checkFileName

/-- A real directory listing: immediate entry names never contain `/`. -/
def validDirB (t : FsTree) : Bool :=
  (readdir t).all (fun n => !hasSlash n)

/-- Outcome of `downloadAndExtractTgz` (and of evaluating
`packageJson.dist.tarball`): an error thrown inside the `try`, or the tree
extracted into the temporary directory. -/
inductive ExtractOutcome where
  | failure
  | success (tree : FsTree)

/-- Filesystem side effects performed by the archive probe. -/
inductive FsEffect where
  | mkdtemp (dir : String)
  | download (dir : String)
  | rmdir (dir : String)
deriving DecidableEq, Repr

/-- `SUPPORTED_FORMAT_PROPERTIES` from the source, in order. -/
def SUPPORTED_FORMAT_PROPERTIES : List String :=
  ["fesm2015", "fesm5", "es2015", "esm2015", "esm5", "main", "module", "browser"]

/-- `packageJson[prop]` when it is a string, else `none`. -/
def lookupField (info : RegistryMetadata) (prop : String) : Option String :=
  match info.fields.find? (fun p => p.1 == prop) with
  | some p => some p.2
  | none => none

/-- The fallback loop of `isViewEngine`: walks the format properties in
order; for each string-valued field, resolves the `.js`→`.d.ts` candidate
against the temporary directory and keeps it when `checkFileExists` accepts
it (no break: a later hit overwrites an earlier one). -/
def findTypingsLoop (info : RegistryMetadata) (tmpDir : String) (tree : FsTree) :
    Option String :=
  SUPPORTED_FORMAT_PROPERTIES.foldl
    (fun found prop =>
      match lookupField info prop with
      | none => found
      | some field =>
        let typingsPath := pathResolve tmpDir (replaceSuffix field ".js" ".d.ts")
        if checkFileExists tree typingsPath then some typingsPath else found)
    none

/-- Boolean decision of the slow path of `isViewEngine`, given the extracted
tree: resolve the typings entry point (`typings || types`, else the format
property loop), then test for the sibling `.metadata.json` marker; no entry
point resolved means `false`. -/
def isViewEngineResult (info : RegistryMetadata) (tmpDir : String) (tree : FsTree) : Bool :=
  let foundTypings :=
    match jsOr info.typings info.types with
    | some t => some t
    | none => findTypingsLoop info tmpDir tree
  match foundTypings with
  | none => false
  | some t =>
    let metadataPath := pathResolve tmpDir (replaceSuffix t ".d.ts" "" ++ ".metadata.json")
    checkFileExists tree metadataPath

/-- `isViewEngine(packageJson)`: fast path returns true on the legacy
`metadata` flag with no filesystem work; the slow path creates a temporary
directory, downloads and extracts the archive, decides via
`isViewEngineResult` (a download or extraction error is caught and yields
`false`), and removes the temporary directory in `finally` on every slow
path.  The boolean result is paired with the effect trace. -/
def isViewEngine (info : RegistryMetadata) (tmpDir : String) (extract : ExtractOutcome) :
    Bool × List FsEffect :=
  if info.metadata then (true, [])
  else
    match extract with
    | .failure =>
      (false, [FsEffect.mkdtemp tmpDir, FsEffect.rmdir tmpDir])
    | .success tree =>
      (isViewEngineResult info tmpDir tree,
        [FsEffect.mkdtemp tmpDir, FsEffect.download tmpDir, FsEffect.rmdir tmpDir])

/-- One entry of the `mayNeedUpgrade` / `reviewForRemoval` buckets. -/
structure Entry where
  packageName : String
  currentVersion : String
  latestVersion : String
deriving DecidableEq, Repr

/-- The three classification buckets of `dependenciesToCheck`
(the `unknown` bucket holds bare names). -/
structure Buckets where
  mayNeedUpgrade : List Entry
  reviewForRemoval : List Entry
  unknown : List String
deriving DecidableEq, Repr

def emptyBuckets : Buckets :=
  { mayNeedUpgrade := [], reviewForRemoval := [], unknown := [] }

/-- The tail of `checkAngularCompatibility` after the `@angular/` special
case: the package-boundary gate
`(enforceAngularPackageBoundary && hasAngularCoreDependency) ||
!enforceAngularPackageBoundary` decides between running the archive probe
(result picks `reviewForRemoval` or `mayNeedUpgrade`) and pushing the bare
name to `unknown`. -/
def afterNgCheck (enforceBoundary : Bool) (packageName currentVersion : String)
    (info : RegistryMetadata) (tmpDir : String) (extract : ExtractOutcome) (b : Buckets) :
    Buckets × List FsEffect :=
  let latestVersion := info.version
  let allDependencies := info.dependencies ++ info.devDependencies ++ info.peerDependencies
  let hasAngularCoreDependency := hasKey allDependencies "@angular/core"
  if (enforceBoundary && hasAngularCoreDependency) || !enforceBoundary then
    let r := isViewEngine info tmpDir extract
    if r.1 then
      ({ b with reviewForRemoval :=
          b.reviewForRemoval ++ [⟨packageName, currentVersion, latestVersion⟩] }, r.2)
    else
      ({ b with mayNeedUpgrade :=
          b.mayNeedUpgrade ++ [⟨packageName, currentVersion, latestVersion⟩] }, r.2)
  else
    ({ b with unknown := b.unknown ++ [packageName] }, [])

/-- `checkAngularCompatibility(packageName, dependenciesToCheck,
currentVersion)` with the registry answer and probe environment made
explicit.  Mirrors the source control flow: absent metadata → `unknown`;
an `@angular/` name with differing version is pushed to `mayNeedUpgrade`
and execution continues into `afterNgCheck` (the source has no early return
there), while an `@angular/` name with equal version returns at once. -/
def checkAngularCompatibility (enforceBoundary : Bool) (packageName currentVersion : String)
    (fetch : FetchResult) (tmpDir : String) (extract : ExtractOutcome) (b : Buckets) :
    Buckets × List FsEffect :=
  match fetch with
  | .notFound => ({ b with unknown := b.unknown ++ [packageName] }, [])
  | .exhausted => ({ b with unknown := b.unknown ++ [packageName] }, [])
  | .found info =>
    let latestVersion := info.version
    if strStartsWith packageName "@angular/" && !(currentVersion == latestVersion) then
      afterNgCheck enforceBoundary packageName currentVersion info tmpDir extract
        { b with mayNeedUpgrade :=
            b.mayNeedUpgrade ++ [⟨packageName, currentVersion, latestVersion⟩] }
    else if strStartsWith packageName "@angular/" then (b, [])
    else afterNgCheck enforceBoundary packageName currentVersion info tmpDir extract b

/-- Per-run environment: registry answer, archive outcome and temporary
directory for each package name. -/
structure RunEnv where
  fetch : String → FetchResult
  extract : String → ExtractOutcome
  tmpDirOf : String → String

/-- The classification tasks of `getDependenciesAndCheckCompatibility`, one
per dependency; the list order stands for the (arbitrary) task completion
order. -/
def runLoop (enforceBoundary : Bool) (env : RunEnv) :
    List (String × String) → Buckets × List FsEffect → Buckets × List FsEffect
  | [], acc => acc
  | p :: rest, acc =>
    let r := checkAngularCompatibility enforceBoundary p.1 p.2 (env.fetch p.1)
      (env.tmpDirOf p.1) (env.extract p.1) acc.1
    runLoop enforceBoundary env rest (r.1, acc.2 ++ r.2)

/-- `getDependenciesAndCheckCompatibility`: optionally drops `@angular/`
names (`--skip-ng`), then runs one classification task per dependency
starting from empty buckets. -/
def runChecks (enforceBoundary skipNg : Bool) (deps : List (String × String))
    (env : RunEnv) : Buckets × List FsEffect :=
  let selected :=
    if skipNg then deps.filter (fun p => !strStartsWith p.1 "@angular/") else deps
  runLoop enforceBoundary env selected (emptyBuckets, [])

/-- Number of appearances of a package name across all three buckets. -/
def bucketCount (b : Buckets) (name : String) : Nat :=
  (b.mayNeedUpgrade.filter (fun e => e.packageName == name)).length +
  (b.reviewForRemoval.filter (fun e => e.packageName == name)).length +
  (b.unknown.filter (fun s => s == name)).length

/-- Total number of entries across all three buckets. -/
def totalSize (b : Buckets) : Nat :=
  b.mayNeedUpgrade.length + b.reviewForRemoval.length + b.unknown.length

/-- Disk model for the effect trace: the set (as a list) of temporary
directories currently existing. -/
def applyEffect (dirs : List String) : FsEffect → List String
  | .mkdtemp d => dirs ++ [d]
  | .download _ => dirs
  | .rmdir d => dirs.filter (fun x => !(x == d))

def applyEffects (effs : List FsEffect) (dirs : List String) : List String :=
  effs.foldl applyEffect dirs

/-- Membership test used by the disk model. -/
def containsStr (l : List String) (s : String) : Bool :=
  l.any (fun x => x == s)

/-! Concrete scenarios used by counterexamples and witnesses. -/

/-- The spec's example registry answer for `left-pad`:
`{version:"1.3.0", dependencies:{}}`, no legacy flag, no typings, no dist. -/
def leftPadMeta : RegistryMetadata :=
  { name := "left-pad", version := "1.3.0", dependencies := [], devDependencies := [],
    peerDependencies := [], metadata := false, typings := none, types := none,
    fields := [], distTarball := none }

/-- Environment answering every lookup with `leftPadMeta`; the archive probe
fails (the metadata has no `dist` field, so `packageJson.dist.tarball`
throws inside the probe's `try`). -/
def c1Env : RunEnv :=
  { fetch := fun _ => .found leftPadMeta, extract := fun _ => .failure,
    tmpDirOf := fun n => "/tmp/npm-" ++ sanitizePackageName n ++ "-x" }

/-- Latest metadata of a first-party framework package, no legacy flag. -/
def ngAnimMeta : RegistryMetadata :=
  { name := "@angular/animations", version := "16.0.0", dependencies := [],
    devDependencies := [], peerDependencies := [], metadata := false, typings := none,
    types := none, fields := [], distTarball := none }

/-- Latest metadata of `@angular/core` itself, no legacy flag. -/
def ngCoreMeta : RegistryMetadata :=
  { name := "@angular/core", version := "16.0.0", dependencies := [], devDependencies := [],
    peerDependencies := [], metadata := false, typings := none, types := none,
    fields := [], distTarball := none }

/-- Environment answering every lookup with `ngCoreMeta`. -/
def c3Env : RunEnv :=
  { fetch := fun _ => .found ngCoreMeta, extract := fun _ => .failure,
    tmpDirOf := fun n => "/tmp/npm-" ++ sanitizePackageName n ++ "-x" }

/-- Metadata of a package without the legacy flag whose archive carries a
`.metadata.json` marker beside its `index.d.ts` typings entry point. -/
def legacyLibMeta : RegistryMetadata :=
  { name := "legacy-lib", version := "1.0.0",
    dependencies := [("@angular/core", "^11.0.0")], devDependencies := [],
    peerDependencies := [], metadata := false, typings := some "index.d.ts",
    types := none, fields := [],
    distTarball := some "https://registry.npmjs.org/legacy-lib/-/legacy-lib-1.0.0.tgz" }

/-- The extracted archive of `legacy-lib`: the marker file
`index.metadata.json` sits beside `index.d.ts` at the top level. -/
def legacyTree : FsTree :=
  .node [("index.js", .node []), ("index.d.ts", .node []),
         ("index.metadata.json", .node []), ("package.json", .node [])]

/-- Metadata that carries the legacy `metadata` flag and declares
`@angular/core` among its dependencies. -/
def flaggedMeta : RegistryMetadata :=
  { name := "legacy-flagged", version := "2.0.0",
    dependencies := [("@angular/core", "^12.0.0")], devDependencies := [],
    peerDependencies := [], metadata := true, typings := some "index.d.ts",
    types := none, fields := [],
    distTarball := some "https://registry.npmjs.org/legacy-flagged/-/legacy-flagged-2.0.0.tgz" }

/-- Attempt sequence: 500, then a transport error, then a 200 answer. -/
def failFailOk (m : RegistryMetadata) : Nat → HttpAttempt
  | 1 => .response 500 m
  | 2 => .transportError "socket hang up"
  | _ => .response 200 m

/-- Environment for the conservation witness: one package exhausts its
retries, the other's archive probe fails. -/
def c8Env : RunEnv :=
  { fetch := fun n => if n == "left-pad" then .exhausted else .found leftPadMeta,
    extract := fun _ => .failure,
    tmpDirOf := fun n => "/tmp/npm-" ++ sanitizePackageName n ++ "-x" }

/-! ### Helper lemmas -/

theorem afterNgCheck_total (enf : Bool) (p cur : String) (info : RegistryMetadata)
    (tmp : String) (ex : ExtractOutcome) (b : Buckets) :
    totalSize (afterNgCheck enf p cur info tmp ex b).1 = totalSize b + 1 := by
  unfold afterNgCheck
  dsimp only
  split_ifs <;> simp [totalSize] <;> omega

theorem check_total (enf : Bool) (p cur : String) (f : FetchResult) (tmp : String)
    (ex : ExtractOutcome) (b : Buckets) (hng : strStartsWith p "@angular/" = false) :
    totalSize (checkAngularCompatibility enf p cur f tmp ex b).1 = totalSize b + 1 := by
  cases f with
  | notFound =>
    simp only [checkAngularCompatibility, totalSize]
    simp
    omega
  | exhausted =>
    simp only [checkAngularCompatibility, totalSize]
    simp
    omega
  | found info => simp [checkAngularCompatibility, hng, afterNgCheck_total]

theorem afterNgCheck_count_other (enf : Bool) (p cur : String) (info : RegistryMetadata)
    (tmp : String) (ex : ExtractOutcome) (b : Buckets) (name : String) (hne : p ≠ name) :
    bucketCount (afterNgCheck enf p cur info tmp ex b).1 name = bucketCount b name := by
  have hbeq : (p == name) = false := by simp [hne]
  unfold afterNgCheck
  dsimp only
  split_ifs <;> simp [bucketCount, List.filter_append, hbeq]

theorem afterNgCheck_count_self (enf : Bool) (p cur : String) (info : RegistryMetadata)
    (tmp : String) (ex : ExtractOutcome) (b : Buckets) :
    bucketCount (afterNgCheck enf p cur info tmp ex b).1 p = bucketCount b p + 1 := by
  unfold afterNgCheck
  dsimp only
  split_ifs <;> simp [bucketCount, List.filter_append] <;> omega

theorem check_count_other (enf : Bool) (p cur : String) (f : FetchResult) (tmp : String)
    (ex : ExtractOutcome) (b : Buckets) (name : String) (hne : p ≠ name) :
    bucketCount (checkAngularCompatibility enf p cur f tmp ex b).1 name = bucketCount b name := by
  have hbeq : (p == name) = false := by simp [hne]
  cases f with
  | notFound => simp [checkAngularCompatibility, bucketCount, List.filter_append, hbeq]
  | exhausted => simp [checkAngularCompatibility, bucketCount, List.filter_append, hbeq]
  | found info =>
    simp only [checkAngularCompatibility]
    split_ifs with h1 h2
    · rw [afterNgCheck_count_other _ _ _ _ _ _ _ _ hne]
      simp [bucketCount, List.filter_append, hbeq]
    · simp [bucketCount]
    · exact afterNgCheck_count_other _ _ _ _ _ _ _ _ hne

theorem check_count_self (enf : Bool) (p cur : String) (f : FetchResult) (tmp : String)
    (ex : ExtractOutcome) (b : Buckets) (hng : strStartsWith p "@angular/" = false) :
    bucketCount (checkAngularCompatibility enf p cur f tmp ex b).1 p = bucketCount b p + 1 := by
  cases f with
  | notFound =>
    simp [checkAngularCompatibility, bucketCount, List.filter_append]
    omega
  | exhausted =>
    simp [checkAngularCompatibility, bucketCount, List.filter_append]
    omega
  | found info => simp [checkAngularCompatibility, hng, afterNgCheck_count_self]

theorem runLoop_total (enf : Bool) (env : RunEnv) (l : List (String × String))
    (acc : Buckets × List FsEffect)
    (h : ∀ p ∈ l, strStartsWith p.1 "@angular/" = false) :
    totalSize (runLoop enf env l acc).1 = totalSize acc.1 + l.length := by
  induction l generalizing acc with
  | nil => simp [runLoop]
  | cons p rest ih =>
    rw [runLoop]
    rw [ih _ (fun q hq => h q (List.mem_cons_of_mem _ hq))]
    rw [check_total _ _ _ _ _ _ _ (h p (List.mem_cons_self _ _))]
    simp [List.length_cons]
    omega

theorem runLoop_count_notmem (enf : Bool) (env : RunEnv) (l : List (String × String))
    (acc : Buckets × List FsEffect) (name : String)
    (hnot : name ∉ l.map Prod.fst) :
    bucketCount (runLoop enf env l acc).1 name = bucketCount acc.1 name := by
  induction l generalizing acc with
  | nil => simp [runLoop]
  | cons p rest ih =>
    have hp : p.1 ≠ name := by
      intro h
      exact hnot (by simp [← h])
    rw [runLoop]
    rw [ih _ (fun h => hnot (List.mem_cons_of_mem _ h))]
    exact check_count_other _ _ _ _ _ _ _ _ hp

theorem runLoop_count_mem (enf : Bool) (env : RunEnv) (l : List (String × String))
    (acc : Buckets × List FsEffect) (name range : String)
    (hnodup : (l.map Prod.fst).Nodup) (hmem : (name, range) ∈ l)
    (hng : strStartsWith name "@angular/" = false) :
    bucketCount (runLoop enf env l acc).1 name = bucketCount acc.1 name + 1 := by
  induction l generalizing acc with
  | nil => cases hmem
  | cons p rest ih =>
    rw [List.map_cons] at hnodup
    have hnodup' := List.nodup_cons.mp hnodup
    rcases List.mem_cons.mp hmem with heq | hmem'
    · subst heq
      have hnot : name ∉ rest.map Prod.fst := hnodup'.1
      rw [runLoop]
      dsimp only
      rw [runLoop_count_notmem _ _ _ _ _ hnot]
      exact check_count_self enf name range (env.fetch name) (env.tmpDirOf name)
        (env.extract name) acc.1 hng
    · have hp : p.1 ≠ name := by
        intro h
        exact hnodup'.1 (h ▸ List.mem_map_of_mem Prod.fst hmem')
      rw [runLoop]
      rw [ih _ hnodup'.2 hmem']
      rw [check_count_other _ _ _ _ _ _ _ _ hp]

theorem httpAux_step_transient (attempts : Nat → HttpAttempt)
    (retries delayMs attempt fuel rest next : Nat)
    (hfuel : fuel = rest + 1) (hnext : next = attempt + 1)
    (ht : transient (attempts attempt) = true) (hlt : attempt < retries) :
    httpAux attempts retries delayMs attempt fuel
      = ((httpAux attempts retries delayMs next rest).1,
         (httpAux attempts retries delayMs next rest).2.1,
         delayMs * 2 ^ (attempt - 1) :: (httpAux attempts retries delayMs next rest).2.2) := by
  subst hfuel
  subst hnext
  cases a : attempts attempt with
  | response c body =>
    have h' := of_decide_eq_true (by simpa [transient, a] using ht)
    obtain ⟨h404, hcond⟩ := h'
    simp [httpAux, a, h404, hcond, hlt]
  | transportError msg => simp [httpAux, a, hlt]

theorem httpAux_attempts_le (attempts : Nat → HttpAttempt) (retries delayMs : Nat) :
    ∀ fuel attempt, (httpAux attempts retries delayMs attempt fuel).2.1 ≤ attempt - 1 + fuel := by
  intro fuel
  induction fuel with
  | zero => intro attempt; simp [httpAux]
  | succ fuel ih =>
    intro attempt
    have ih' := ih (attempt + 1)
    cases a : attempts attempt with
    | response c body =>
      simp only [httpAux, a]
      split_ifs <;> simp <;> omega
    | transportError msg =>
      simp only [httpAux, a]
      split_ifs <;> simp <;> omega

theorem containsStr_filter_ne (l : List String) (s : String) :
    containsStr (l.filter (fun x => !(x == s))) s = false := by
  induction l with
  | nil => simp [containsStr]
  | cons a l ih =>
    by_cases h : a = s
    · simpa [List.filter, h] using ih
    · have hb : (a == s) = false := by simp [h]
      simp only [containsStr] at ih ⊢
      simp [List.filter_cons, hb, ih]

theorem data_append (a b : String) : (a ++ b).data = a.data ++ b.data := by
  cases a
  cases b
  rfl

theorem hasSlash_pathResolve (base rel : String) :
    hasSlash (pathResolve base rel) = true := by
  unfold pathResolve
  split_ifs with h
  · have h' : rel.data.head? = some '/' := eq_of_beq h
    cases hd : rel.data with
    | nil => simp [hd] at h'
    | cons c t =>
      have hc : c = '/' := by
        rw [hd] at h'
        simpa using h'
      simp [hasSlash, hd, hc]
  · simp [hasSlash, data_append]

/-! ### Claim theorems -/

/-- C1 (counterexample): the claim asserts that a dependency whose present
registry metadata declares no `@angular/core` lands in `unknown` regardless
of enforce-boundary mode; with enforce-boundary mode inactive, the spec's
own `left-pad` example does not land in `unknown`. -/
theorem noCoreDep_unknown_counterexample :
    ¬ ((runChecks false false [("left-pad", "1.0.0")] c1Env).1.unknown = ["left-pad"]) := by
  decide

/-- C1 (amended): a dependency with present metadata and no `@angular/core`
among its combined dependency maps is placed in `unknown` (and no other
bucket) exactly when enforce-boundary mode is active; when the mode is
inactive it proceeds to the archive probe and its `unknown` bucket entry is
never added.  The spec's `left-pad` example yields `unknown = ["left-pad"]`
with the other buckets empty under enforce-boundary mode. -/
theorem noCoreDep_unknown_amended (name cur tmp : String) (info : RegistryMetadata)
    (ex : ExtractOutcome) (b : Buckets)
    (hng : strStartsWith name "@angular/" = false)
    (hcore : hasKey (info.dependencies ++ info.devDependencies ++ info.peerDependencies)
      "@angular/core" = false) :
    checkAngularCompatibility true name cur (.found info) tmp ex b
      = ({ b with unknown := b.unknown ++ [name] }, []) ∧
    (checkAngularCompatibility false name cur (.found info) tmp ex b).1.unknown = b.unknown ∧
    (runChecks true false [("left-pad", "1.0.0")] c1Env).1
      = { mayNeedUpgrade := [], reviewForRemoval := [], unknown := ["left-pad"] } := by
  have hcore' : hasKey (info.dependencies ++ (info.devDependencies ++ info.peerDependencies))
      "@angular/core" = false := by
    rw [← List.append_assoc]
    exact hcore
  refine ⟨?_, ?_, by decide⟩
  · simp [checkAngularCompatibility, afterNgCheck, hng, hcore, hcore']
  · simp only [checkAngularCompatibility, afterNgCheck, hng]
    cases hv : (isViewEngine info tmp ex).1 <;> simp [hv]

theorem noCoreDep_unknown_amended_witness :
    strStartsWith "left-pad" "@angular/" = false ∧
    hasKey (leftPadMeta.dependencies ++ leftPadMeta.devDependencies ++
      leftPadMeta.peerDependencies) "@angular/core" = false ∧
    checkAngularCompatibility true "left-pad" "1.0.0" (.found leftPadMeta) "/tmp/lp" .failure
      emptyBuckets = ({ emptyBuckets with unknown := emptyBuckets.unknown ++ ["left-pad"] }, []) ∧
    (runChecks true false [("left-pad", "1.0.0")] c1Env).1
      = { mayNeedUpgrade := [], reviewForRemoval := [], unknown := ["left-pad"] } :=
  ⟨by decide, by decide,
    (noCoreDep_unknown_amended "left-pad" "1.0.0" "/tmp/lp" leftPadMeta .failure emptyBuckets
      (by decide) (by decide)).1,
    (noCoreDep_unknown_amended "left-pad" "1.0.0" "/tmp/lp" leftPadMeta .failure emptyBuckets
      (by decide) (by decide)).2.2⟩

/-- C2 (code bug): for an `@angular/` package whose declared version differs
from the latest version, the task appends it to `mayNeedUpgrade` and then —
because the source lacks an early return in that branch — still invokes the
archive probe (creating and removing a temporary directory) and appends the
package a second time; here the probe's slow path fails, so the same entry
lands in `mayNeedUpgrade` twice. -/
theorem angularPrefix_fallthrough_bug :
    (checkAngularCompatibility false "@angular/animations" "15.0.0" (.found ngAnimMeta)
      "/tmp/ng" .failure emptyBuckets).1.mayNeedUpgrade
      = [⟨"@angular/animations", "15.0.0", "16.0.0"⟩,
         ⟨"@angular/animations", "15.0.0", "16.0.0"⟩] ∧
    (checkAngularCompatibility false "@angular/animations" "15.0.0" (.found ngAnimMeta)
      "/tmp/ng" .failure emptyBuckets).2
      = [.mkdtemp "/tmp/ng", .rmdir "/tmp/ng"] := by
  decide

/-- C3 (counterexample): the claim asserts that every dependency processed
by the coordinator appears in exactly one bucket exactly once; an
`@angular/` dependency whose declared version equals the latest version is
processed but appears in no bucket at all. -/
theorem exactlyOneBucket_counterexample :
    bucketCount (runChecks false false [("@angular/core", "16.0.0")] c3Env).1
      "@angular/core" ≠ 1 := by
  decide

/-- C3 (amended): every processed dependency whose name does not start with
`@angular/` appears in exactly one of the three buckets exactly once
(dependency names are unique in a manifest). -/
theorem exactlyOneBucket_amended (enf skipNg : Bool) (deps : List (String × String))
    (env : RunEnv) (name range : String)
    (hnodup : (deps.map Prod.fst).Nodup)
    (hmem : (name, range) ∈ deps)
    (hng : strStartsWith name "@angular/" = false) :
    bucketCount (runChecks enf skipNg deps env).1 name = 1 := by
  cases skipNg with
  | false =>
    have hrw : runChecks enf false deps env = runLoop enf env deps (emptyBuckets, []) := by
      simp [runChecks]
    rw [hrw, runLoop_count_mem enf env deps _ name range hnodup hmem hng]
    simp [bucketCount, emptyBuckets]
  | true =>
    have hsub : (deps.filter (fun p => !strStartsWith p.1 "@angular/")).Sublist deps :=
      List.filter_sublist deps
    have hnodup' : ((deps.filter (fun p => !strStartsWith p.1 "@angular/")).map Prod.fst).Nodup :=
      hnodup.sublist (hsub.map Prod.fst)
    have hmem' : (name, range) ∈ deps.filter (fun p => !strStartsWith p.1 "@angular/") :=
      List.mem_filter.mpr ⟨hmem, by simp [hng]⟩
    have hrw : runChecks enf true deps env
        = runLoop enf env (deps.filter (fun p => !strStartsWith p.1 "@angular/"))
          (emptyBuckets, []) := by
      simp [runChecks]
    rw [hrw, runLoop_count_mem enf env _ _ name range hnodup' hmem' hng]
    simp [bucketCount, emptyBuckets]

theorem exactlyOneBucket_amended_witness :
    ([("left-pad", "1.0.0")].map Prod.fst).Nodup ∧
    ("left-pad", "1.0.0") ∈ [("left-pad", "1.0.0")] ∧
    strStartsWith "left-pad" "@angular/" = false ∧
    bucketCount (runChecks false false [("left-pad", "1.0.0")] c1Env).1 "left-pad" = 1 :=
  ⟨by decide, by decide, by decide,
    exactlyOneBucket_amended false false [("left-pad", "1.0.0")] c1Env "left-pad" "1.0.0"
      (by decide) (by decide) (by decide)⟩

/-- C4 (code bug): for metadata without the legacy flag whose extracted
archive does contain the `.metadata.json` marker beside the resolved
`index.d.ts` entry point, the probe still returns `false` and the
dependency is classified `mayNeedUpgrade` — `checkFileExists` compares the
absolute resolved marker path against the immediate entry names of the
temporary directory, which can never match. -/
theorem markerProbe_alwaysFalse_bug :
    (readdir legacyTree).contains "index.metadata.json" = true ∧
    jsOr legacyLibMeta.typings legacyLibMeta.types = some "index.d.ts" ∧
    isViewEngine legacyLibMeta "/tmp/l" (.success legacyTree)
      = (false, [.mkdtemp "/tmp/l", .download "/tmp/l", .rmdir "/tmp/l"]) ∧
    (checkAngularCompatibility false "legacy-lib" "1.0.0" (.found legacyLibMeta) "/tmp/l"
      (.success legacyTree) emptyBuckets).1
      = { mayNeedUpgrade := [⟨"legacy-lib", "1.0.0", "1.0.0"⟩],
          reviewForRemoval := [], unknown := [] } := by
  decide

/-- C5: `httpGetWithRetry` at its call-site defaults makes at most 3
attempts; when the first two attempts fail transiently and the third
answers 2xx, it returns the parsed metadata after backoff delays of
`1000 * 2^0 = 1000` ms and `1000 * 2^1 = 2000` ms. -/
theorem httpRetry_backoff_spec (attempts atts : Nat → HttpAttempt) (m : RegistryMetadata)
    (h1 : transient (attempts 1) = true) (h2 : transient (attempts 2) = true)
    (h3 : attempts 3 = .response 200 m) :
    httpGetLatest attempts = (.found m, 3, [1000, 2000]) ∧
    (httpGetLatest atts).2.1 ≤ 3 := by
  constructor
  · unfold httpGetLatest httpGetWithRetry
    rw [httpAux_step_transient attempts 3 1000 1 3 2 2 (by norm_num) (by norm_num) h1
      (by norm_num)]
    rw [httpAux_step_transient attempts 3 1000 2 2 1 3 (by norm_num) (by norm_num) h2
      (by norm_num)]
    simp [httpAux, h3]
  · have hle := httpAux_attempts_le atts 3 1000 3 1
    unfold httpGetLatest httpGetWithRetry
    omega

theorem httpRetry_backoff_spec_witness :
    transient (failFailOk leftPadMeta 1) = true ∧
    transient (failFailOk leftPadMeta 2) = true ∧
    failFailOk leftPadMeta 3 = .response 200 leftPadMeta ∧
    httpGetLatest (failFailOk leftPadMeta) = (.found leftPadMeta, 3, [1000, 2000]) ∧
    (httpGetLatest (failFailOk leftPadMeta)).2.1 ≤ 3 :=
  ⟨by decide, by decide, by decide,
    (httpRetry_backoff_spec (failFailOk leftPadMeta) (failFailOk leftPadMeta) leftPadMeta
      (by decide) (by decide) (by decide)).1,
    (httpRetry_backoff_spec (failFailOk leftPadMeta) (failFailOk leftPadMeta) leftPadMeta
      (by decide) (by decide) (by decide)).2⟩

/-- C6: a 404 answer resolves `httpGetWithRetry` at once with the absent
result — one attempt, no backoff delay — and the classifier then puts the
dependency's bare name in `unknown`. -/
theorem httpNotFound_immediate (attempts : Nat → HttpAttempt) (body : RegistryMetadata)
    (retries delayMs : Nat) (enf : Bool) (name cur tmp : String) (ex : ExtractOutcome)
    (b : Buckets)
    (h404 : attempts 1 = .response 404 body) (hr : 1 ≤ retries) :
    httpGetWithRetry attempts retries delayMs = (.notFound, 1, []) ∧
    checkAngularCompatibility enf name cur .notFound tmp ex b
      = ({ b with unknown := b.unknown ++ [name] }, []) := by
  constructor
  · obtain ⟨k, rfl⟩ : ∃ k, retries = k + 1 := ⟨retries - 1, by omega⟩
    simp [httpGetWithRetry, httpAux, h404]
  · rfl

theorem httpNotFound_immediate_witness :
    (fun _ : Nat => HttpAttempt.response 404 leftPadMeta) 1
      = HttpAttempt.response 404 leftPadMeta ∧
    (1 : Nat) ≤ 3 ∧
    httpGetWithRetry (fun _ => .response 404 leftPadMeta) 3 1000 = (.notFound, 1, []) ∧
    checkAngularCompatibility false "left-pad" "1.0.0" .notFound "/tmp/lp" .failure emptyBuckets
      = ({ emptyBuckets with unknown := emptyBuckets.unknown ++ ["left-pad"] }, []) :=
  ⟨by decide, by decide,
    (httpNotFound_immediate (fun _ => .response 404 leftPadMeta) leftPadMeta 3 1000 false
      "left-pad" "1.0.0" "/tmp/lp" .failure emptyBuckets (by decide) (by decide)).1,
    (httpNotFound_immediate (fun _ => .response 404 leftPadMeta) leftPadMeta 3 1000 false
      "left-pad" "1.0.0" "/tmp/lp" .failure emptyBuckets (by decide) (by decide)).2⟩

/-- C7: metadata carrying the legacy `metadata` flag makes the probe return
true immediately with an empty effect trace (no temporary directory, no
download, no removal), and the dependency reaching the probe is classified
`reviewForRemoval` only. -/
theorem legacyFlag_fastPath (enf : Bool) (name cur tmp : String) (info : RegistryMetadata)
    (ex : ExtractOutcome) (b : Buckets)
    (hflag : info.metadata = true)
    (hng : strStartsWith name "@angular/" = false)
    (hb : enf = true →
      hasKey (info.dependencies ++ info.devDependencies ++ info.peerDependencies)
        "@angular/core" = true) :
    isViewEngine info tmp ex = (true, []) ∧
    checkAngularCompatibility enf name cur (.found info) tmp ex b
      = ({ b with reviewForRemoval := b.reviewForRemoval ++ [⟨name, cur, info.version⟩] }, []) := by
  have hve : isViewEngine info tmp ex = (true, []) := by simp [isViewEngine, hflag]
  refine ⟨hve, ?_⟩
  cases enf with
  | false => simp [checkAngularCompatibility, afterNgCheck, hng, hve]
  | true =>
    have hb' : hasKey (info.dependencies ++ (info.devDependencies ++ info.peerDependencies))
        "@angular/core" = true := by
      rw [← List.append_assoc]
      exact hb rfl
    simp [checkAngularCompatibility, afterNgCheck, hng, hve, hb']

theorem legacyFlag_fastPath_witness :
    flaggedMeta.metadata = true ∧
    strStartsWith "legacy-flagged" "@angular/" = false ∧
    hasKey (flaggedMeta.dependencies ++ flaggedMeta.devDependencies ++
      flaggedMeta.peerDependencies) "@angular/core" = true ∧
    isViewEngine flaggedMeta "/tmp/lf" (.success legacyTree) = (true, []) ∧
    checkAngularCompatibility true "legacy-flagged" "1.5.0" (.found flaggedMeta) "/tmp/lf"
      (.success legacyTree) emptyBuckets
      = ({ emptyBuckets with reviewForRemoval :=
            emptyBuckets.reviewForRemoval ++ [⟨"legacy-flagged", "1.5.0", "2.0.0"⟩] }, []) :=
  ⟨by decide, by decide, by decide,
    (legacyFlag_fastPath true "legacy-flagged" "1.5.0" "/tmp/lf" flaggedMeta
      (.success legacyTree) emptyBuckets (by decide) (by decide) (fun _ => by decide)).1,
    (legacyFlag_fastPath true "legacy-flagged" "1.5.0" "/tmp/lf" flaggedMeta
      (.success legacyTree) emptyBuckets (by decide) (by decide) (fun _ => by decide)).2⟩

/-- C8: with no `@angular/` name among the input specs (and the skip filter
off), the finished run satisfies
`|mayNeedUpgrade| + |reviewForRemoval| + |unknown| = |input specs|`, for
every registry/probe environment — exhausted retries and failed probes
included. -/
theorem bucket_conservation (enf : Bool) (deps : List (String × String)) (env : RunEnv)
    (h : ∀ p ∈ deps, strStartsWith p.1 "@angular/" = false) :
    totalSize (runChecks enf false deps env).1 = deps.length := by
  have hrw : runChecks enf false deps env = runLoop enf env deps (emptyBuckets, []) := by
    simp [runChecks]
  rw [hrw, runLoop_total enf env deps _ h]
  simp [totalSize, emptyBuckets]

theorem bucket_conservation_witness :
    (∀ p ∈ [("left-pad", "1.0.0"), ("lodash", "4.17.21")],
      strStartsWith p.1 "@angular/" = false) ∧
    totalSize (runChecks false false [("left-pad", "1.0.0"), ("lodash", "4.17.21")] c8Env).1
      = 2 :=
  ⟨by decide,
    bucket_conservation false [("left-pad", "1.0.0"), ("lodash", "4.17.21")] c8Env (by decide)⟩

/-- C9: on the slow path (metadata without the legacy flag) the probe's
effect trace ends with the removal of the per-package temporary directory,
and interpreting the trace over any initial disk state leaves no trace of
that directory — on extraction failure and on both marker-check outcomes
alike. -/
theorem probe_cleanup (info : RegistryMetadata) (tmp : String) (ex : ExtractOutcome)
    (dirs : List String) (hslow : info.metadata = false) :
    ((isViewEngine info tmp ex).2).getLast? = some (.rmdir tmp) ∧
    containsStr (applyEffects (isViewEngine info tmp ex).2 dirs) tmp = false := by
  cases ex with
  | failure =>
    have he : (isViewEngine info tmp .failure).2 = [.mkdtemp tmp, .rmdir tmp] := by
      simp [isViewEngine, hslow]
    rw [he]
    exact ⟨rfl, containsStr_filter_ne _ _⟩
  | success tree =>
    have he : (isViewEngine info tmp (.success tree)).2
        = [.mkdtemp tmp, .download tmp, .rmdir tmp] := by
      simp [isViewEngine, hslow]
    rw [he]
    exact ⟨rfl, containsStr_filter_ne _ _⟩

theorem probe_cleanup_witness :
    legacyLibMeta.metadata = false ∧
    ((isViewEngine legacyLibMeta "/tmp/l" (.success legacyTree)).2).getLast?
      = some (.rmdir "/tmp/l") ∧
    containsStr (applyEffects (isViewEngine legacyLibMeta "/tmp/l" (.success legacyTree)).2
      ["/tmp/other"]) "/tmp/l" = false :=
  ⟨by decide,
    (probe_cleanup legacyLibMeta "/tmp/l" (.success legacyTree) ["/tmp/other"] (by decide)).1,
    (probe_cleanup legacyLibMeta "/tmp/l" (.success legacyTree) ["/tmp/other"] (by decide)).2⟩

/-- C10: `checkFileExists` accepts exactly the strings equal to an immediate
entry name of the directory (it never recurses), every path produced by
`path.resolve` contains a separator, and hence — since real entry names
contain no separator — `checkFileExists` rejects every resolved path
`isViewEngine` passes it. -/
theorem checkFileExists_topLevel_only (d : FsTree) (s base rel : String)
    (hv : validDirB d = true) :
    (checkFileExists d s = true ↔ s ∈ readdir d) ∧
    hasSlash (pathResolve base rel) = true ∧
    checkFileExists d (pathResolve base rel) = false := by
  have hmem : ∀ t : String, checkFileExists d t = true ↔ t ∈ readdir d := by
    intro t
    simp [checkFileExists]
  refine ⟨hmem s, hasSlash_pathResolve base rel, ?_⟩
  cases hce : checkFileExists d (pathResolve base rel) with
  | false => rfl
  | true =>
    exfalso
    have hm := (hmem _).mp hce
    have hval := (List.all_eq_true.mp hv) _ hm
    rw [hasSlash_pathResolve base rel] at hval
    simp at hval

theorem checkFileExists_topLevel_only_witness :
    validDirB legacyTree = true ∧
    (checkFileExists legacyTree "index.d.ts" = true ↔ "index.d.ts" ∈ readdir legacyTree) ∧
    hasSlash (pathResolve "/tmp/l" "index.metadata.json") = true ∧
    checkFileExists legacyTree (pathResolve "/tmp/l" "index.metadata.json") = false :=
  ⟨by decide,
    (checkFileExists_topLevel_only legacyTree "index.d.ts" "/tmp/l" "index.metadata.json"
      (by decide)).1,
    (checkFileExists_topLevel_only legacyTree "index.d.ts" "/tmp/l" "index.metadata.json"
      (by decide)).2.1,
    (checkFileExists_topLevel_only legacyTree "index.d.ts" "/tmp/l" "index.metadata.json"
      (by decide)).2.2⟩

end NgDepAudit
